import Mathlib

/-
Verification of the payload_dumper_web extraction pipeline.

The definitions below are a shallow embedding of the TypeScript sources:
  - src/lib/payloadHandler.ts (PayloadParser: readUint64, parse, extractPartition)
  - src/workers/payload.worker.ts (downloadRange, readZipPayload, readPayloadHeader,
    processUrl, processPayloadBuffer)
Byte buffers are lists of naturals (each entry a byte value); DataView reads are
little-endian; JavaScript exceptions are modelled with Except; fetch outcomes are
supplied as explicit scripts or as total byte-source functions.
-/

deriving instance DecidableEq for Except

namespace PayloadDumper

/-- A byte buffer: JS ArrayBuffer / Uint8Array contents as a list of byte values. -/
abbrev Bytes := List Nat

/-- Byte at index i of a buffer (reads past the end give 0; every use below is
guarded by the same bounds checks the source performs). -/
def byteAt (b : Bytes) (i : Nat) : Nat := b.getD i 0

/-- Little-endian value of n bytes starting at index i, as DataView getUintN(i, true). -/
def leVal (b : Bytes) : Nat → Nat → Nat
  | _, 0 => 0
  | i, n + 1 => byteAt b i + 256 * leVal b (i + 1) n

/-- DataView.getUint32(i, true): RangeError (none) when the read passes the end. -/
def getU32 (b : Bytes) (i : Nat) : Option Nat :=
  if i + 4 ≤ b.length then some (leVal b i 4) else none

/-- DataView.getUint16(i, true) with the same RangeError behaviour. -/
def getU16 (b : Bytes) (i : Nat) : Option Nat :=
  if i + 2 ≤ b.length then some (leVal b i 2) else none

/-- DataView.getBigUint64(i, true) with the same RangeError behaviour. -/
def getU64 (b : Bytes) (i : Nat) : Option Nat :=
  if i + 8 ≤ b.length then some (leVal b i 8) else none

/-- JavaScript ArrayBuffer.slice(s, e) for non-negative indices: clamps both ends. -/
def jsSlice (b : Bytes) (s e : Nat) : Bytes := (b.take e).drop s

/-- Number.MAX_SAFE_INTEGER. -/
def maxSafeInteger : Nat := 2 ^ 53 - 1

/-- Little-endian encoding of v into n bytes (v taken mod 256^n). -/
def encodeLE : Nat → Nat → Bytes
  | 0, _ => []
  | n + 1, v => v % 256 :: encodeLE n (v / 256)

/-
PayloadParser (src/lib/payloadHandler.ts, second document: payloadParser.ts).
-/

/-- PayloadParser.readUint64 at a given cursor: the source reads the low and the
high 32-bit halves and returns only the low one (lines 110-116). -/
def readUint64 (b : Bytes) (off : Nat) : Nat := leVal b off 4

/-- An update operation as decoded by PayloadParser.parseManifest. -/
structure Operation where
  type : Nat
  dataOffset : Nat
  dataLength : Nat
deriving DecidableEq

/-- A partition entry of the buffer-path manifest (names kept as UTF-8 bytes). -/
structure PartitionUpdate where
  partitionName : Bytes
  operations : List Operation
deriving DecidableEq

/-- Errors surfaced by PayloadParser.extractPartition. -/
inductive ExecErr
  | unsupported (t : Nat)
  | missingPartition (name : Bytes)
deriving DecidableEq

/-- The bytes one operation contributes: REPLACE (type 0) slices the payload body,
ZERO (type 1) appends dataLength zero bytes (extractPartition lines 167-189). -/
def opChunk (body : Bytes) (op : Operation) : Bytes :=
  if op.type = 0 then jsSlice body op.dataOffset (op.dataOffset + op.dataLength)
  else List.replicate op.dataLength 0

/-- The operation loop of PayloadParser.extractPartition: REPLACE and ZERO chunks
are concatenated in list order; any other type throws before a blob is built. -/
def execOps (body : Bytes) : List Operation → Except ExecErr Bytes
  | [] => .ok []
  | op :: rest =>
    if op.type = 0 ∨ op.type = 1 then
      match execOps body rest with
      | .ok tail => .ok (opChunk body op ++ tail)
      | .error e => .error e
    else .error (.unsupported op.type)

/-- PayloadParser.extractPartition: look the partition up by name, then replay its
operation list against the payload body. -/
def extractPartition (body : Bytes) (manifest : List PartitionUpdate) (name : Bytes) :
    Except ExecErr Bytes :=
  match manifest.find? (fun p => p.partitionName == name) with
  | none => .error (.missingPartition name)
  | some p => execOps body p.operations

/-- The chunk the specification ascribes to one operation: the payload-body bytes
of the half-open interval starting at dataOffset for REPLACE, zeros for ZERO. -/
def specChunk (body : Bytes) (op : Operation) : Bytes :=
  if op.type = 0 then (body.drop op.dataOffset).take op.dataLength
  else List.replicate op.dataLength 0

/-- The type of the first operation the executor does not support, if any. -/
def firstUnsupported (ops : List Operation) : Option Nat :=
  (ops.find? (fun op => decide (1 < op.type))).map (fun op => op.type)

/-
readPayloadHeader (src/workers/payload.worker.ts, lines 309-453, first document).
The 8 KiB window fetched from the body offset is the buffer argument; z is the
zipOffset added to each decoded partition offset (0 for a raw payload).
-/

/-- A manifest entry as stored by readPayloadHeader (name kept as UTF-8 bytes). -/
structure MEntry where
  name : Bytes
  size : Nat
  offset : Nat
deriving DecidableEq

/-- The parsed header returned by readPayloadHeader. -/
structure WHeader where
  version : Nat
  manifest : List MEntry
deriving DecidableEq

/-- The terminal errors readPayloadHeader throws, one per source message. -/
inductive HdrErr
  | tooSmall
  | rangeFault
  | badMagic (m : Nat)
  | badVersion (v : Nat)
  | badHeaderSize (s : Nat)
  | badManifestCount (c : Nat)
  | badNameLength (i n : Nat)
  | bufferOverflow (i : Nat)
  | badPartitionSize (i s : Nat)
  | badPartitionOffset (i o : Nat)
  | emptyManifest
deriving DecidableEq

/-- The manifest-entry loop of readPayloadHeader (lines 400-441): n entries remain,
the cursor is at off, i is the entry index; the loop also stops silently when
fewer than 4 bytes remain before the next entry. -/
def parseEntries (buf : Bytes) (z : Nat) : Nat → Nat → Nat → Except HdrErr (List MEntry)
  | 0, _, _ => .ok []
  | n + 1, off, i =>
    if off + 4 ≤ buf.length then
      let nameLen := leVal buf off 4
      if nameLen = 0 ∨ 256 < nameLen ∨ buf.length < off + 4 + nameLen then
        .error (.badNameLength i nameLen)
      else if buf.length < off + 4 + nameLen + 24 then
        .error (.bufferOverflow i)
      else
        let size := leVal buf (off + 4 + nameLen) 8
        let poff := leVal buf (off + 4 + nameLen + 8) 8
        if size = 0 ∨ maxSafeInteger < size then .error (.badPartitionSize i size)
        else if maxSafeInteger < poff then .error (.badPartitionOffset i poff)
        else
          match parseEntries buf z n (off + 4 + nameLen + 24) (i + 1) with
          | .error e => .error e
          | .ok rest => .ok (⟨(buf.drop (off + 4)).take nameLen, size, z + poff⟩ :: rest)
    else .ok []

/-- readPayloadHeader: magic, version, header size and manifest count checks in
source order, then the entry loop, then the empty-manifest check. -/
def readPayloadHeader (buf : Bytes) (z : Nat) : Except HdrErr WHeader :=
  if buf.length < 8 then .error .tooSmall
  else
    let magic := leVal buf 0 4
    if magic ≠ 0xed26ff3a then .error (.badMagic magic)
    else
      let version := leVal buf 4 4
      if version ≠ 2 then .error (.badVersion version)
      else
        match getU64 buf 8 with
        | none => .error .rangeFault
        | some hs =>
          if hs = 0 ∨ buf.length < hs then .error (.badHeaderSize hs)
          else
            match getU32 buf 16 with
            | none => .error .rangeFault
            | some c =>
              if c = 0 ∨ 100 < c then .error (.badManifestCount c)
              else
                match parseEntries buf z c 20 0 with
                | .error e => .error e
                | .ok entries =>
                  if entries.isEmpty then .error .emptyManifest
                  else .ok ⟨version, entries⟩

/-
downloadRange (src/workers/payload.worker.ts, lines 66-149, first document).
Fetch outcomes are supplied as a script consumed one entry per fetch call.
-/

/-- One fetch call's outcome: a body, or a failure with a cause identifier
(either a non-ok/non-206 status or a thrown network error). -/
inductive FetchOutcome
  | ok (bytes : Bytes)
  | fail (cause : Nat)
deriving DecidableEq

/-- The errors downloadRange throws. -/
inductive DlErr
  | invalidRange
  | rangeFailed (cause : Nat)
  | chunkFailed (cause : Nat)
  | scriptEnded
deriving DecidableEq

/-- The observable behaviour of one downloadRange call: the ranges actually
requested (in order, retries included), the backoff waits performed (in ms),
and the final outcome. -/
structure DlRun where
  requests : List (Nat × Nat)
  waits : List Nat
  result : Except DlErr Bytes
deriving DecidableEq

/-- The chunked while-loop of downloadRange (lines 104-137): last is the final
byte index, cs the current chunk start, retry the current retry count; each
iteration consumes one fetch outcome from the script; on failure the count
increments, the call aborts at 3 and otherwise waits 1000*retryCount ms. -/
def chunkLoop (last cap : Nat) :
    List FetchOutcome → Nat → Nat → List (Nat × Nat) × List Nat × Except DlErr (List Bytes)
  | [], cs, _ =>
    if last < cs then ([], [], .ok []) else ([], [], .error .scriptEnded)
  | f :: rest, cs, retry =>
    if last < cs then ([], [], .ok [])
    else
      let ce := min (cs + cap - 1) last
      match f with
      | .ok b =>
        let r := chunkLoop last cap rest (ce + 1) 0
        ((cs, ce) :: r.1, r.2.1, (r.2.2).map (fun l => b :: l))
      | .fail c =>
        if 3 ≤ retry + 1 then ([(cs, ce)], [], .error (.chunkFailed c))
        else
          let r := chunkLoop last cap rest cs (retry + 1)
          ((cs, ce) :: r.1, 1000 * (retry + 1) :: r.2.1, r.2.2)

/-- downloadRange: the range guard, the direct single-request branch for total
sizes up to the cap, and the chunked branch that concatenates the chunks. -/
def downloadRange (script : List FetchOutcome) (s e cap : Nat) : DlRun :=
  if e < s ∨ maxSafeInteger < e then ⟨[], [], .error .invalidRange⟩
  else if e - s + 1 ≤ cap then
    match script with
    | .ok b :: _ => ⟨[(s, e)], [], .ok b⟩
    | .fail c :: _ => ⟨[(s, e)], [], .error (.rangeFailed c)⟩
    | [] => ⟨[(s, e)], [], .error .scriptEnded⟩
  else
    let r := chunkLoop e cap script s 0
    ⟨r.1, r.2.1, (r.2.2).map (fun ls => ls.flatten)⟩

/-- The half-open-free description of a closed byte range as the list of its
absolute positions. -/
def interval (a b : Nat) : List Nat := List.range' a (b + 1 - a)

/-
The extraction sessions (processUrl lines 487-611, processPayloadBuffer lines
613-639, and the onmessage wrapper lines 455-479, first document). Worker
messages are modelled as events; blob URLs are dropped.
-/

/-- A worker message as seen by the page: Progress carries the partition name,
and a session ends with exactly one of success or error. -/
inductive Event
  | progress (name : Bytes)
  | success
  | error
deriving DecidableEq

/-- Whether an Except is a success, as a boolean. -/
def exOk {ε α : Type} : Except ε α → Bool
  | .ok _ => true
  | .error _ => false

/-- The partition loop of processUrl (lines 561-605) together with the success
posted by onmessage: a name absent from the manifest is warned about and skipped
with no event; a found partition is downloaded (dl is the downloadRange call on
its byte range) and yields one progress event; a download failure is rethrown
and ends the session with one error event. -/
def urlLoop (dl : Nat → Nat → Except DlErr Bytes) (manifest : List MEntry) :
    List Bytes → List Event
  | [] => [.success]
  | n :: rest =>
    match manifest.find? (fun m => m.name == n) with
    | none => urlLoop dl manifest rest
    | some p =>
      match dl p.offset (p.offset + p.size - 1) with
      | .ok _ => .progress n :: urlLoop dl manifest rest
      | .error _ => [.error]

/-- processUrl as a whole: header parsing happens before any partition work, and
a header error ends the session with one error event and no progress event. -/
def processUrlModel (buf : Bytes) (z : Nat) (dl : Nat → Nat → Except DlErr Bytes)
    (names : List Bytes) : List Event :=
  match readPayloadHeader buf z with
  | .error _ => [.error]
  | .ok h => urlLoop dl h.manifest names

/-- The partition loop of processPayloadBuffer (lines 619-638) together with the
terminal event posted by onmessage: each extractPartition failure - including a
missing partition name - is rethrown, ending the session with one error event. -/
def bufferLoop (body : Bytes) (manifest : List PartitionUpdate) :
    List Bytes → List Event
  | [] => [.success]
  | n :: rest =>
    match extractPartition body manifest n with
    | .ok _ => .progress n :: bufferLoop body manifest rest
    | .error _ => [.error]

/-
readZipPayload (src/workers/payload.worker.ts, lines 152-306, first document).
The trailing window of the resource and the central directory are explicit
buffers; local-file headers and payload magics are read from a total byte
source res (one byte per absolute resource offset).
-/

/-- The errors readZipPayload throws. -/
inductive ZErr
  | eocdNotFound
  | rangeFault
  | badLocalHeader
  | badZip64Eocd
  | containerNotFound
deriving DecidableEq

/-- ASCII toLowerCase on one byte (all fixture names are ASCII). -/
def asciiLower (b : Nat) : Nat := if 65 ≤ b ∧ b ≤ 90 then b + 32 else b

/-- UTF-8 bytes of the lowercase candidate filename payload.bin. -/
def payloadBinBytes : Bytes := [112, 97, 121, 108, 111, 97, 100, 46, 98, 105, 110]

/-- UTF-8 bytes of the lowercase candidate filename payload.img. -/
def payloadImgBytes : Bytes := [112, 97, 121, 108, 111, 97, 100, 46, 105, 109, 103]

/-- The candidate test of lines 234-236: the lowercased entry name must end with
one of the lowercased candidate names (the four source candidates lowercase to
these two). -/
def isPayloadName (name : Bytes) : Bool :=
  payloadBinBytes.isSuffixOf (name.map asciiLower) ||
    payloadImgBytes.isSuffixOf (name.map asciiLower)

/-- The bytes a range request for n bytes starting at absolute offset a returns,
reading from the total byte source res. -/
def fetchRange (res : Nat → Nat) (a n : Nat) : Bytes :=
  (List.range n).map (fun k => res (a + k))

/-- The central-directory walk of readZipPayload (lines 210-305): cd is the
fetched central-directory buffer, off the cursor. Each record advances the
cursor by 46 plus the three variable lengths, so the walk makes at most one step
per byte of cd; the fuel argument makes that recursion structural and every call
below passes fuel at least cd.length, which the stride of 46 makes sufficient.
For a stored candidate the local file header is fetched at the 32-bit
local-header offset field (1025 bytes, lines 248-253), its signature is checked,
the body offset is localHeaderOffset + 30 + filenameLength + extraFieldLength
from the local header's own length fields, and the candidate is accepted only if
the 4 bytes there hold the payload magic; otherwise the walk continues. -/
def zipScanF (res : Nat → Nat) (cd : Bytes) : Nat → Nat → Except ZErr Nat
  | 0, _ => .error .containerNotFound
  | fuel + 1, off =>
    if off < cd.length then
      match getU32 cd off with
      | none => .error .rangeFault
      | some sig =>
        if sig ≠ 0x02014b50 then .error .containerNotFound
        else
          match getU16 cd (off + 28), getU16 cd (off + 30), getU16 cd (off + 32),
              getU32 cd (off + 42), getU16 cd (off + 10) with
          | some fn, some ef, some fc, some lho, some cm =>
            if cd.length < off + 46 + fn then .error .rangeFault
            else
              let name := (cd.drop (off + 46)).take fn
              if isPayloadName name then
                if cm ≠ 0 then zipScanF res cd fuel (off + 46 + fn + ef + fc)
                else
                  let hb := fetchRange res lho 1025
                  if leVal hb 0 4 ≠ 0x04034b50 then .error .badLocalHeader
                  else
                    let fdo := lho + 30 + leVal hb 26 2 + leVal hb 28 2
                    if leVal (fetchRange res fdo 8) 0 4 = 0xed26ff3a then .ok fdo
                    else zipScanF res cd fuel (off + 46 + fn + ef + fc)
              else zipScanF res cd fuel (off + 46 + fn + ef + fc)
          | _, _, _, _, _ => .error .rangeFault
    else .error .containerNotFound

/-
The ZIP64-capable revision of readZipPayload (src/unnamed/part_002, lines
151-417): its EOCD stage understands the ZIP64 end-of-central-directory record,
the ZIP64 locator record and the sentinel values, and its central-directory
walk resolves a sentinel local-header offset through the ZIP64 extra field.
Number() applied to a BigUint64 is modelled as the exact value (they agree for
values below 2^53).
-/

/-- The backward signature scan of part_002's readZipPayload (lines 182-192):
from byteLength - 22 down to 0, stopping at the first ZIP64 EOCD signature
0x06064B50 (flag true) or standard EOCD signature 0x06054B50 (flag false). -/
def scanEocd2Aux (buf : Bytes) : Nat → Option (Nat × Bool)
  | 0 =>
    if leVal buf 0 4 = 0x06064b50 then some (0, true)
    else if leVal buf 0 4 = 0x06054b50 then some (0, false)
    else none
  | i + 1 =>
    if leVal buf (i + 1) 4 = 0x06064b50 then some (i + 1, true)
    else if leVal buf (i + 1) 4 = 0x06054b50 then some (i + 1, false)
    else scanEocd2Aux buf i

/-- The EOCD search over the trailing window (part_002): starts at
byteLength - 22; a window shorter than 22 bytes finds nothing. -/
def findEocd2 (buf : Bytes) : Option (Nat × Bool) :=
  if buf.length < 22 then none else scanEocd2Aux buf (buf.length - 22)

/-- The central-directory offset, size, entry count and ZIP64 flag resolved by
part_002's EOCD stage. -/
structure Cd2Info where
  cdOffset : Nat
  cdSize : Nat
  entries : Nat
  isZip64 : Bool
deriving DecidableEq

/-- The EOCD stage of part_002's readZipPayload (lines 177-248): a ZIP64 EOCD
found directly in the window is read with its 64-bit fields (size at +40,
offset at +48, entries at +32); otherwise the standard 32/16-bit fields are
read, and when any of them holds the sentinel value 0xFFFFFFFF/0xFFFF the
ZIP64 locator record (signature 0x07064B50, 20 bytes before the EOCD) is
checked and followed: its 8-byte pointer names the absolute offset of the
ZIP64 EOCD record, 256 bytes are fetched there, the signature 0x06064B50 is
required, and the true 64-bit size/offset/entries are taken from that record;
a missing locator leaves the sentinel values in place. -/
def readZipEocd2 (res : Nat → Nat) (endBuf : Bytes) : Except ZErr Cd2Info :=
  match findEocd2 endBuf with
  | none => .error .eocdNotFound
  | some (e, true) =>
    match getU64 endBuf (e + 40), getU64 endBuf (e + 48), getU64 endBuf (e + 32) with
    | some sz, some off, some cnt => .ok ⟨off, sz, cnt, true⟩
    | _, _, _ => .error .rangeFault
  | some (e, false) =>
    let cdSize := leVal endBuf (e + 12) 4
    let cdOffset := leVal endBuf (e + 16) 4
    let totalEntries := leVal endBuf (e + 10) 2
    if cdOffset = 0xffffffff ∨ cdSize = 0xffffffff ∨ totalEntries = 0xffff then
      if 20 ≤ e ∧ leVal endBuf (e - 20) 4 = 0x07064b50 then
        let z64off := leVal endBuf (e - 20 + 8) 8
        let zb := fetchRange res z64off 256
        if leVal zb 0 4 ≠ 0x06064b50 then .error .badZip64Eocd
        else .ok ⟨leVal zb 48 8, leVal zb 40 8, leVal zb 32 8, true⟩
      else .ok ⟨cdOffset, cdSize, totalEntries, false⟩
    else .ok ⟨cdOffset, cdSize, totalEntries, false⟩

/-- The ZIP64 extra-field scan of part_002's central-directory walk (lines
311-326): walk the extra-field records from zo up to endPos, each holding a
2-byte header id, a 2-byte data size and that many data bytes; the record with
id 0x0001 yields the true 64-bit local-header offset from its first 8 data
bytes; reaching endPos keeps the incoming (sentinel) value. Each iteration
consumes one unit of fuel and advances at least 4 bytes, so a fuel of
extraFieldLength + 1 covers every iteration the source loop can make. -/
def zip64ExtraScan (cd : Bytes) (endPos : Nat) : Nat → Nat → Nat → Except ZErr Nat
  | 0, _, lho => .ok lho
  | fuel + 1, zo, lho =>
    if zo < endPos then
      match getU16 cd zo, getU16 cd (zo + 2) with
      | some hid, some dsz =>
        if hid = 0x0001 then
          match getU64 cd (zo + 4) with
          | some v => .ok v
          | none => .error .rangeFault
        else zip64ExtraScan cd endPos fuel (zo + 4 + dsz) lho
      | _, _ => .error .rangeFault
    else .ok lho

/-- The effective local-header offset part_002's walk uses for the record at
off (lines 296-327): the raw 32-bit field at +42, replaced through the ZIP64
extra-field scan over [off + 46 + fileNameLength, + extraFieldLength) exactly
when the raw field holds the sentinel 0xFFFFFFFF. -/
def entryLocalHeaderOffset (cd : Bytes) (off : Nat) : Except ZErr Nat :=
  let raw := leVal cd (off + 42) 4
  if raw = 0xffffffff then
    zip64ExtraScan cd
      (off + 46 + leVal cd (off + 28) 2 + leVal cd (off + 30) 2)
      (leVal cd (off + 30) 2 + 1)
      (off + 46 + leVal cd (off + 28) 2) raw
  else .ok raw

/-
Concrete fixtures used by witnesses and counterexamples.
-/

/-- A well-formed 52-byte payload header window: magic 0xED26FF3A, version 2,
header size 24, one manifest entry named boot with size 4 and offset 64. -/
def goodBuf : Bytes :=
  [0x3a, 0xff, 0x26, 0xed, 2, 0, 0, 0, 24, 0, 0, 0, 0, 0, 0, 0, 1, 0, 0, 0,
   4, 0, 0, 0, 98, 111, 111, 116, 4, 0, 0, 0, 0, 0, 0, 0,
   64, 0, 0, 0, 0, 0, 0, 0, 0, 0, 0, 0, 0, 0, 0, 0]

/-- UTF-8 bytes of the partition name boot. -/
def bootName : Bytes := [98, 111, 111, 116]

/-- UTF-8 bytes of the partition name doesnotexist. -/
def dneName : Bytes := [100, 111, 101, 115, 110, 111, 116, 101, 120, 105, 115, 116]

/-- A 45-byte ZIP fragment at resource offset 0: a stored local file header with
filename length 11 and extra length 0, the name payload.bin, then the payload
magic, so the embedded payload body starts at the known offset 41. -/
def zipFile : Bytes :=
  [0x50, 0x4b, 0x03, 0x04, 0, 0, 0, 0, 0, 0, 0, 0, 0, 0, 0, 0, 0, 0, 0, 0,
   0, 0, 0, 0, 0, 0, 11, 0, 0, 0,
   112, 97, 121, 108, 111, 97, 100, 46, 98, 105, 110,
   0x3a, 0xff, 0x26, 0xed]

/-- The byte source of the ZIP fixture. -/
def zres (n : Nat) : Nat := byteAt zipFile n

/-- The 57-byte central directory of the ZIP fixture: one stored entry named
payload.bin whose local-header offset field is 0. -/
def cdFixture : Bytes :=
  [0x50, 0x4b, 0x01, 0x02, 0, 0, 0, 0, 0, 0, 0, 0, 0, 0, 0, 0, 0, 0, 0, 0,
   0, 0, 0, 0, 0, 0, 0, 0, 11, 0, 0, 0, 0, 0, 0, 0, 0, 0, 0, 0, 0, 0,
   0, 0, 0, 0,
   112, 97, 121, 108, 111, 97, 100, 46, 98, 105, 110]

/-- A 98-byte trailing window holding a ZIP64 EOCD record (true
central-directory offset 100) at 0, the ZIP64 locator at 56, and an EOCD record
at 76 whose entry count, size and offset fields all hold the 16/32-bit sentinel
values. -/
def z64Fixture : Bytes :=
  [0x50, 0x4b, 0x06, 0x06, 44, 0, 0, 0, 0, 0, 0, 0,
   0, 0, 0, 0, 0, 0, 0, 0, 0, 0, 0, 0,
   1, 0, 0, 0, 0, 0, 0, 0, 1, 0, 0, 0, 0, 0, 0, 0,
   46, 0, 0, 0, 0, 0, 0, 0, 100, 0, 0, 0, 0, 0, 0, 0,
   0x50, 0x4b, 0x06, 0x07, 0, 0, 0, 0, 0, 0, 0, 0, 0, 0, 0, 0, 1, 0, 0, 0,
   0x50, 0x4b, 0x05, 0x06, 0, 0, 0, 0, 0, 0, 255, 255,
   255, 255, 255, 255, 255, 255, 255, 255, 0, 0]

/-- A 77-byte central-directory record whose local-header offset field holds
the 32-bit sentinel 0xFFFFFFFF: filename length 11 (payload.bin), extra-field
length 20, and an extra-field block holding one unrelated record (id 0x0009,
4 data bytes) followed by the ZIP64 record (id 0x0001) whose first 8 data
bytes encode the true 64-bit local-header offset 77. -/
def z64cd2 : Bytes :=
  [0x50, 0x4b, 0x01, 0x02, 0, 0, 0, 0, 0, 0, 0, 0, 0, 0, 0, 0, 0, 0, 0, 0,
   0, 0, 0, 0, 0, 0, 0, 0, 11, 0, 20, 0, 0, 0, 0, 0, 0, 0, 0, 0, 0, 0,
   255, 255, 255, 255,
   112, 97, 121, 108, 111, 97, 100, 46, 98, 105, 110,
   9, 0, 4, 0, 0, 0, 0, 0,
   1, 0, 8, 0, 77, 0, 0, 0, 0, 0, 0, 0]

/-
Helper lemmas.
-/

lemma opChunk_eq_specChunk (body : Bytes) (op : Operation) :
    opChunk body op = specChunk body op := by
  unfold opChunk specChunk jsSlice
  split
  · rw [List.drop_take]
    congr 1
    omega
  · rfl

lemma leVal_cons (a : Nat) (tl : Bytes) : ∀ n i, leVal (a :: tl) (i + 1) n = leVal tl i n := by
  intro n
  induction n with
  | zero => intro i; rfl
  | succ m ih =>
    intro i
    show byteAt (a :: tl) (i + 1) + 256 * leVal (a :: tl) (i + 1 + 1) m = _
    rw [show i + 1 + 1 = (i + 1) + 1 from rfl, ih (i + 1)]
    rfl

lemma leVal_append (pre l : Bytes) : ∀ i n, leVal (pre ++ l) (pre.length + i) n = leVal l i n := by
  induction pre with
  | nil => intro i n; simp
  | cons a tl ih =>
    intro i n
    have hlen : (a :: tl).length + i = (tl.length + i) + 1 := by
      simp only [List.length_cons]
      omega
    rw [hlen]
    show leVal (a :: (tl ++ l)) ((tl.length + i) + 1) n = _
    rw [leVal_cons, ih]

lemma leVal_encodeLE (v : Nat) : ∀ n m, n ≤ m → leVal (encodeLE m v) 0 n = v % 256 ^ n := by
  have key : ∀ n : Nat, ∀ v m : Nat, n ≤ m → leVal (encodeLE m v) 0 n = v % 256 ^ n := by
    intro n
    induction n with
    | zero => intro v m _; simp [leVal, Nat.mod_one]
    | succ k ih =>
      intro v m hnm
      match m, hnm with
      | m' + 1, _ =>
        show byteAt (v % 256 :: encodeLE m' (v / 256)) 0 +
            256 * leVal (v % 256 :: encodeLE m' (v / 256)) 1 k = v % 256 ^ (k + 1)
        rw [show (1 : Nat) = 0 + 1 from rfl, leVal_cons, ih (v / 256) m' (by omega)]
        have hb : byteAt (v % 256 :: encodeLE m' (v / 256)) 0 = v % 256 := rfl
        rw [hb, pow_succ, mul_comm (256 ^ k) 256, Nat.mod_mul]
  intro n m h
  exact key n v m h

lemma execOps_unsupported (body : Bytes) (t : Nat) :
    ∀ ops : List Operation, firstUnsupported ops = some t →
      execOps body ops = .error (.unsupported t) := by
  intro ops
  induction ops with
  | nil => intro h; simp [firstUnsupported] at h
  | cons op rest ih =>
    intro h
    by_cases hs : op.type = 0 ∨ op.type = 1
    · have hlt : ¬1 < op.type := by omega
      have hfr : firstUnsupported rest = some t := by
        unfold firstUnsupported at h ⊢
        rwa [List.find?_cons_of_neg _ (by simp [hlt])] at h
      simp only [execOps, if_pos hs, ih hfr]
    · have hlt : 1 < op.type := by omega
      have ht : t = op.type := by
        unfold firstUnsupported at h
        rw [List.find?_cons_of_pos _ (by simp [hlt])] at h
        simpa using h.symm
      simp only [execOps, if_neg hs, ht]

/-- The list of operations used by the concrete C1 example. -/
def c1ops : List Operation := [⟨0, 0, 4⟩, ⟨1, 0, 4⟩]

/-- C1: for an operation list of only REPLACE (type 0) and ZERO (type 1)
operations whose REPLACE reads stay inside the payload body, extractPartition's
operation loop succeeds and its output is exactly the concatenation, in list
order, of the body bytes starting at dataOffset (dataLength of them) for each
REPLACE and dataLength zero bytes for each ZERO, so the output length is the sum
of the dataLength fields. -/
theorem c1_replace_zero_exact (body : Bytes) (ops : List Operation)
    (hsupp : ∀ op ∈ ops, op.type = 0 ∨ op.type = 1)
    (hbound : ∀ op ∈ ops, op.type = 0 → op.dataOffset + op.dataLength ≤ body.length) :
    execOps body ops = .ok ((ops.map (specChunk body)).flatten) ∧
    ((ops.map (specChunk body)).flatten).length = (ops.map (fun op => op.dataLength)).sum := by
  induction ops with
  | nil => exact ⟨rfl, rfl⟩
  | cons op rest ih =>
    have hop := hsupp op (List.mem_cons_self op rest)
    obtain ⟨ih1, ih2⟩ := ih (fun o ho => hsupp o (List.mem_cons_of_mem op ho))
      (fun o ho => hbound o (List.mem_cons_of_mem op ho))
    have hchunklen : (specChunk body op).length = op.dataLength := by
      unfold specChunk
      by_cases h0 : op.type = 0
      · rw [if_pos h0]
        have hb := hbound op (List.mem_cons_self op rest) h0
        rw [List.length_take, List.length_drop]
        omega
      · rw [if_neg h0]
        exact List.length_replicate _ _
    constructor
    · simp only [execOps, if_pos hop, ih1, List.map_cons, List.flatten_cons,
        opChunk_eq_specChunk]
    · simp only [List.map_cons, List.flatten_cons, List.length_append, List.sum_cons,
        hchunklen, ih2]

/-- C1 witness: executing REPLACE(0,4) then ZERO(4) over the payload body ABCD
yields exactly the bytes ABCD followed by four zero bytes. -/
theorem c1_replace_zero_exact_witness :
    (∀ op ∈ c1ops, op.type = 0 ∨ op.type = 1) ∧
    (∀ op ∈ c1ops, op.type = 0 → op.dataOffset + op.dataLength ≤ ([65, 66, 67, 68] : Bytes).length) ∧
    execOps [65, 66, 67, 68] c1ops = .ok [65, 66, 67, 68, 0, 0, 0, 0] := by
  refine ⟨by decide, by decide, ?_⟩
  exact ((c1_replace_zero_exact [65, 66, 67, 68] c1ops (by decide) (by decide)).1).trans (by decide)

/-- C9: an operation list containing any operation whose type is neither REPLACE
(0) nor ZERO (1) - COPY (2), BSDIFF (3) or anything unrecognized - makes the
operation executor throw Unsupported operation type for the first such
operation, and no output bytes are produced for the partition. -/
theorem c9_unsupported_aborts (body : Bytes) (ops : List Operation) (t : Nat)
    (h : firstUnsupported ops = some t) :
    execOps body ops = .error (.unsupported t) ∧ ∀ bs, execOps body ops ≠ .ok bs := by
  have main := execOps_unsupported body t ops h
  exact ⟨main, fun bs hbs => by rw [main] at hbs; exact Except.noConfusion hbs⟩

/-- C9 witness: a single COPY operation (type 2) fails with the unsupported
error and yields no output. -/
theorem c9_unsupported_aborts_witness :
    firstUnsupported [⟨2, 0, 3⟩] = some 2 ∧
    execOps [9, 9] [⟨2, 0, 3⟩] = .error (.unsupported 2) :=
  ⟨by decide, (c9_unsupported_aborts [9, 9] [⟨2, 0, 3⟩] 2 (by decide)).1⟩

/-- C10: PayloadParser.readUint64 returns only the low 32 bits of the 64-bit
little-endian field it reads: for every field value v it parses v mod 2^32, so
every value of 2^32 or larger is silently misread by the buffer-source parser,
which uses readUint64 for the version and manifest-size fields. -/
theorem c10_readUint64_low32 :
    (∀ (v : Nat) (pre : Bytes), readUint64 (pre ++ encodeLE 8 v) pre.length = v % 2 ^ 32) ∧
    (∀ v : Nat, 2 ^ 32 ≤ v → readUint64 (encodeLE 8 v) 0 ≠ v) := by
  have hmain : ∀ (v : Nat) (pre : Bytes),
      readUint64 (pre ++ encodeLE 8 v) pre.length = v % 2 ^ 32 := by
    intro v pre
    unfold readUint64
    have happ := leVal_append pre (encodeLE 8 v) 0 4
    rw [Nat.add_zero] at happ
    rw [happ, leVal_encodeLE v 4 8 (by omega)]
    norm_num
  refine ⟨hmain, fun v hv => ?_⟩
  have h := hmain v []
  simp only [List.nil_append, List.length_nil] at h
  rw [h]
  have hlt : v % 2 ^ 32 < 2 ^ 32 := Nat.mod_lt _ (by norm_num)
  omega

/-- C10 witness: the value 2^32 itself is read back as 0, not 2^32. -/
theorem c10_readUint64_low32_witness :
    2 ^ 32 ≤ 2 ^ 32 ∧ readUint64 (encodeLE 8 (2 ^ 32)) 0 ≠ 2 ^ 32 :=
  ⟨le_refl _, c10_readUint64_low32.2 (2 ^ 32) (le_refl _)⟩

lemma parseEntries_valid (buf : Bytes) (z : Nat) :
    ∀ (n off i : Nat) (l : List MEntry), parseEntries buf z n off i = .ok l →
      ∀ e ∈ l, 1 ≤ e.name.length ∧ e.name.length ≤ 256 ∧ 1 ≤ e.size := by
  intro n
  induction n with
  | zero =>
    intro off i l h e he
    injection h with h
    subst h
    simp at he
  | succ m ih =>
    intro off i l h e he
    simp only [parseEntries] at h
    split at h
    · split at h
      · exact Except.noConfusion h
      · split at h
        · exact Except.noConfusion h
        · split at h
          · exact Except.noConfusion h
          · split at h
            · exact Except.noConfusion h
            · split at h
              · exact Except.noConfusion h
              · rename_i hlen hname hover hsize hoff hrec
                injection h with h
                subst h
                rcases List.mem_cons.mp he with hhd | htl
                · subst hhd
                  refine ⟨?_, ?_, ?_⟩
                  · simp only [List.length_take, List.length_drop]
                    omega
                  · simp only [List.length_take, List.length_drop]
                    omega
                  · show 1 ≤ leVal buf (off + 4 + leVal buf off 4) 8
                    omega
                · exact ih _ _ _ hrec e htl
    · injection h with h
      subst h
      simp at he

lemma parseEntries_shift (buf : Bytes) (z : Nat) :
    ∀ (n off i : Nat), parseEntries buf z n off i =
      (parseEntries buf 0 n off i).map
        (List.map (fun e => MEntry.mk e.name e.size (z + e.offset))) := by
  intro n
  induction n with
  | zero => intro off i; rfl
  | succ m ih =>
    intro off i
    simp only [parseEntries, ih]
    by_cases h1 : off + 4 ≤ buf.length
    · simp only [if_pos h1]
      by_cases h2 : leVal buf off 4 = 0 ∨ 256 < leVal buf off 4 ∨
          buf.length < off + 4 + leVal buf off 4
      · simp [h2, Except.map]
      · simp only [if_neg h2]
        by_cases h3 : buf.length < off + 4 + leVal buf off 4 + 24
        · simp [h3, Except.map]
        · simp only [if_neg h3]
          by_cases h4 : leVal buf (off + 4 + leVal buf off 4) 8 = 0 ∨
              maxSafeInteger < leVal buf (off + 4 + leVal buf off 4) 8
          · simp [h4, Except.map]
          · simp only [if_neg h4]
            by_cases h5 : maxSafeInteger < leVal buf (off + 4 + leVal buf off 4 + 8) 8
            · simp [h5, Except.map]
            · simp only [if_neg h5]
              cases hrec : parseEntries buf 0 m (off + 4 + leVal buf off 4 + 24) (i + 1) with
              | error e => simp [Except.map]
              | ok rest => simp [Except.map, Nat.zero_add]
    · simp [h1, Except.map]

/-- C2: readPayloadHeader validates, in source order, the 4-byte magic
(0xED26FF3A), the 4-byte version (2), the manifest count (must lie in [1,100]),
and per entry the name length (must lie in [1,256] and fit the window) and the
size (must be positive); each violation makes the parse fail with the
corresponding terminal error, a successful parse implies every check passed, and
a parse failure ends the URL session with one error event before any partition
is extracted. -/
theorem c2_header_validation (buf : Bytes) (z : Nat) :
    (buf.length < 8 → readPayloadHeader buf z = .error .tooSmall) ∧
    (8 ≤ buf.length → leVal buf 0 4 ≠ 0xed26ff3a →
      readPayloadHeader buf z = .error (.badMagic (leVal buf 0 4))) ∧
    (8 ≤ buf.length → leVal buf 0 4 = 0xed26ff3a → leVal buf 4 4 ≠ 2 →
      readPayloadHeader buf z = .error (.badVersion (leVal buf 4 4))) ∧
    (20 ≤ buf.length → leVal buf 0 4 = 0xed26ff3a → leVal buf 4 4 = 2 →
      1 ≤ leVal buf 8 8 → leVal buf 8 8 ≤ buf.length →
      (leVal buf 16 4 = 0 ∨ 100 < leVal buf 16 4) →
      readPayloadHeader buf z = .error (.badManifestCount (leVal buf 16 4))) ∧
    (24 ≤ buf.length → leVal buf 0 4 = 0xed26ff3a → leVal buf 4 4 = 2 →
      1 ≤ leVal buf 8 8 → leVal buf 8 8 ≤ buf.length →
      1 ≤ leVal buf 16 4 → leVal buf 16 4 ≤ 100 →
      (leVal buf 20 4 = 0 ∨ 256 < leVal buf 20 4 ∨ buf.length < 24 + leVal buf 20 4) →
      readPayloadHeader buf z = .error (.badNameLength 0 (leVal buf 20 4))) ∧
    (∀ h, readPayloadHeader buf z = .ok h →
      leVal buf 0 4 = 0xed26ff3a ∧ leVal buf 4 4 = 2 ∧ h.version = 2 ∧
      1 ≤ leVal buf 16 4 ∧ leVal buf 16 4 ≤ 100 ∧
      ∀ e ∈ h.manifest, 1 ≤ e.name.length ∧ e.name.length ≤ 256 ∧ 1 ≤ e.size) ∧
    (∀ err dl names, readPayloadHeader buf z = .error err →
      processUrlModel buf z dl names = [Event.error]) := by
  refine ⟨?_, ?_, ?_, ?_, ?_, ?_, ?_⟩
  · intro hsmall
    simp [readPayloadHeader, hsmall]
  · intro hlen hmag
    simp [readPayloadHeader, Nat.not_lt.mpr hlen, hmag]
  · intro hlen hmag hver
    simp [readPayloadHeader, Nat.not_lt.mpr hlen, hmag, hver]
  · intro hlen hmag hver hs1 hs2 hcnt
    have h64 : getU64 buf 8 = some (leVal buf 8 8) := by
      simp [getU64, show 8 + 8 ≤ buf.length by omega]
    have h32 : getU32 buf 16 = some (leVal buf 16 4) := by
      simp [getU32, show 16 + 4 ≤ buf.length by omega]
    simp [readPayloadHeader, Nat.not_lt.mpr (show 8 ≤ buf.length by omega), hmag, hver,
      h64, h32, show ¬(leVal buf 8 8 = 0 ∨ buf.length < leVal buf 8 8) by omega, hcnt]
  · intro hlen hmag hver hs1 hs2 hc1 hc2 hname
    have h64 : getU64 buf 8 = some (leVal buf 8 8) := by
      simp [getU64, show 8 + 8 ≤ buf.length by omega]
    have h32 : getU32 buf 16 = some (leVal buf 16 4) := by
      simp [getU32, show 16 + 4 ≤ buf.length by omega]
    obtain ⟨k, hk⟩ : ∃ k, leVal buf 16 4 = k + 1 := ⟨leVal buf 16 4 - 1, by omega⟩
    have hentry : parseEntries buf z (leVal buf 16 4) 20 0 =
        .error (.badNameLength 0 (leVal buf 20 4)) := by
      rw [hk]
      simp only [parseEntries]
      rw [if_pos (show 20 + 4 ≤ buf.length by omega)]
      rw [if_pos (show leVal buf 20 4 = 0 ∨ 256 < leVal buf 20 4 ∨
        buf.length < 20 + 4 + leVal buf 20 4 by omega)]
    simp [readPayloadHeader, Nat.not_lt.mpr (show 8 ≤ buf.length by omega), hmag, hver,
      h64, h32, show ¬(leVal buf 8 8 = 0 ∨ buf.length < leVal buf 8 8) by omega,
      show ¬(leVal buf 16 4 = 0 ∨ 100 < leVal buf 16 4) by omega, hentry]
  · intro h hok
    simp only [readPayloadHeader] at hok
    split at hok
    · exact Except.noConfusion hok
    · split at hok
      · exact Except.noConfusion hok
      · split at hok
        · exact Except.noConfusion hok
        · rename_i hlen hmag hver
          split at hok
          · exact Except.noConfusion hok
          · rename_i hs hu64
            split at hok
            · exact Except.noConfusion hok
            · rename_i hhs
              split at hok
              · exact Except.noConfusion hok
              · rename_i c hu32
                split at hok
                · exact Except.noConfusion hok
                · rename_i hcnt
                  split at hok
                  · exact Except.noConfusion hok
                  · rename_i entries hentries
                    split at hok
                    · exact Except.noConfusion hok
                    · rename_i hne
                      injection hok with hok
                      subst hok
                      have hc : c = leVal buf 16 4 := by
                        simp only [getU32] at hu32
                        split at hu32
                        · exact (Option.some.inj hu32).symm
                        · exact Option.noConfusion hu32
                      subst hc
                      refine ⟨by omega, by omega, ?_, by omega, by omega, ?_⟩
                      · show leVal buf 4 4 = 2
                        omega
                      · exact parseEntries_valid buf z _ _ _ _ hentries
  · intro err dl names herr
    simp [processUrlModel, herr]

/-- C2 witness: a well-formed 52-byte header window parses successfully, and the
theorem then certifies that every validation passed on it. -/
theorem c2_header_validation_witness :
    readPayloadHeader goodBuf 0 = .ok ⟨2, [⟨bootName, 4, 64⟩]⟩ ∧
    (1 ≤ leVal goodBuf 16 4 ∧ leVal goodBuf 16 4 ≤ 100) := by
  have hd : readPayloadHeader goodBuf 0 = .ok ⟨2, [⟨bootName, 4, 64⟩]⟩ := by decide
  have h := (c2_header_validation goodBuf 0).2.2.2.2.2.1 ⟨2, [⟨bootName, 4, 64⟩]⟩ hd
  exact ⟨hd, h.2.2.2.1, h.2.2.2.2.1⟩

/-- C8: readPayloadHeader with a ZIP body offset z stores, for every manifest
entry, exactly z plus the decoded 8-byte offset field - equivalently, its result
is the z = 0 (raw payload) result with every stored offset shifted by z, and for
a raw payload (z = 0) the stored offset is the decoded offset unchanged. -/
theorem c8_offset_translation (buf : Bytes) (z : Nat) :
    readPayloadHeader buf z =
      (readPayloadHeader buf 0).map
        (fun h => WHeader.mk h.version
          (h.manifest.map (fun e => MEntry.mk e.name e.size (z + e.offset)))) ∧
    (∀ h, readPayloadHeader buf z = .ok h → ∃ h0, readPayloadHeader buf 0 = .ok h0 ∧
      h.manifest.map (fun e => e.offset) = h0.manifest.map (fun e => z + e.offset)) := by
  have hmain : readPayloadHeader buf z =
      (readPayloadHeader buf 0).map
        (fun h => WHeader.mk h.version
          (h.manifest.map (fun e => MEntry.mk e.name e.size (z + e.offset)))) := by
    simp only [readPayloadHeader, parseEntries_shift buf z]
    by_cases h1 : buf.length < 8
    · simp [h1, Except.map]
    · simp only [if_neg h1]
      by_cases h2 : leVal buf 0 4 ≠ 0xed26ff3a
      · simp [h2, Except.map]
      · simp only [if_neg h2]
        by_cases h3 : leVal buf 4 4 ≠ 2
        · simp [h3, Except.map]
        · simp only [if_neg h3]
          cases h64 : getU64 buf 8 with
          | none => simp [Except.map]
          | some hs =>
            simp only []
            by_cases h4 : hs = 0 ∨ buf.length < hs
            · simp [h4, Except.map]
            · simp only [if_neg h4]
              cases h32 : getU32 buf 16 with
              | none => simp [Except.map]
              | some c =>
                simp only []
                by_cases h5 : c = 0 ∨ 100 < c
                · simp [h5, Except.map]
                · simp only [if_neg h5]
                  cases hent : parseEntries buf 0 c 20 0 with
                  | error e => simp [Except.map]
                  | ok entries =>
                    simp only [Except.map]
                    by_cases h6 : entries.isEmpty
                    · simp [h6, List.isEmpty_iff.mp h6]
                    · have h6m : (entries.map
                          (fun e => MEntry.mk e.name e.size (z + e.offset))).isEmpty = false := by
                        cases entries with
                        | nil => simp at h6
                        | cons a tl => rfl
                      have h6f : entries.isEmpty = false := by
                        cases hb : entries.isEmpty
                        · rfl
                        · exact absurd hb h6
                      simp [h6m, h6f]
  refine ⟨hmain, fun h hok => ?_⟩
  rw [hmain] at hok
  cases h0 : readPayloadHeader buf 0 with
  | error e => rw [h0] at hok; exact Except.noConfusion hok
  | ok h0v =>
    rw [h0] at hok
    refine ⟨h0v, rfl, ?_⟩
    injection hok with hok
    subst hok
    simp

/-- C8 witness: parsing the fixture window with ZIP body offset 7 stores 7 plus
the decoded offset 64 of its boot entry. -/
theorem c8_offset_translation_witness :
    readPayloadHeader goodBuf 7 = .ok ⟨2, [⟨bootName, 4, 71⟩]⟩ ∧
    (∃ h0, readPayloadHeader goodBuf 0 = .ok h0 ∧
      (WHeader.mk 2 [⟨bootName, 4, 71⟩]).manifest.map (fun e => e.offset) =
        h0.manifest.map (fun e => 7 + e.offset)) := by
  have hd : readPayloadHeader goodBuf 7 = .ok ⟨2, [⟨bootName, 4, 71⟩]⟩ := by decide
  exact ⟨hd, (c8_offset_translation goodBuf 7).2 _ hd⟩

lemma chunkLoop_done (last cap : Nat) (script : List FetchOutcome) (cs retry : Nat)
    (h : last < cs) : chunkLoop last cap script cs retry = ([], [], .ok []) := by
  cases script <;> simp [chunkLoop, h]

lemma chunkLoop_all_ok (last cap : Nat) (hcap : 0 < cap) :
    ∀ (bodies : List Bytes) (cs retry : Nat), cs ≤ last →
      last + 1 - cs ≤ cap * bodies.length →
      ∃ rs : List (Nat × Nat),
        chunkLoop last cap (bodies.map FetchOutcome.ok) cs retry =
          (rs, [], .ok (bodies.take rs.length)) ∧
        rs.flatMap (fun p => interval p.1 p.2) = interval cs last ∧
        (∀ p ∈ rs, p.1 ≤ p.2 ∧ p.2 + 1 - p.1 ≤ cap) ∧
        rs.length = (last - cs) / cap + 1 := by
  intro bodies
  induction bodies with
  | nil =>
    intro cs retry hcs hsupply
    simp only [List.length_nil, Nat.mul_zero] at hsupply
    omega
  | cons b rest ih =>
    intro cs retry hcs hsupply
    have hnot : ¬last < cs := by omega
    by_cases hend : last ≤ cs + cap - 1
    · have hmin : min (cs + cap - 1) last = last := by omega
      refine ⟨[(cs, last)], ?_, ?_, ?_, ?_⟩
      · show chunkLoop last cap (FetchOutcome.ok b :: rest.map FetchOutcome.ok) cs retry = _
        simp only [chunkLoop, if_neg hnot, hmin,
          chunkLoop_done last cap (rest.map FetchOutcome.ok) (last + 1) 0 (by omega)]
        rfl
      · simp [interval]
      · intro p hp
        simp only [List.mem_singleton] at hp
        subst hp
        constructor
        · exact hcs
        · omega
      · simp only [List.length_singleton]
        rw [Nat.div_eq_of_lt (by omega)]
    · have hmin : min (cs + cap - 1) last = cs + cap - 1 := by omega
      have hcs' : cs + cap ≤ last := by omega
      have hsupply' : last + 1 - (cs + cap) ≤ cap * rest.length := by
        rw [List.length_cons, Nat.mul_succ] at hsupply
        omega
      obtain ⟨rs, hcl, hbind, hbounds, hlen⟩ := ih (cs + cap) 0 (by omega) hsupply'
      refine ⟨(cs, cs + cap - 1) :: rs, ?_, ?_, ?_, ?_⟩
      · show chunkLoop last cap (FetchOutcome.ok b :: rest.map FetchOutcome.ok) cs retry = _
        simp only [chunkLoop, if_neg hnot, hmin, show cs + cap - 1 + 1 = cs + cap by omega,
          hcl]
        rfl
      · show interval cs (cs + cap - 1) ++ rs.flatMap (fun p => interval p.1 p.2) = interval cs last
        rw [hbind]
        show List.range' cs (cs + cap - 1 + 1 - cs) ++ List.range' (cs + cap) (last + 1 - (cs + cap)) =
          List.range' cs (last + 1 - cs)
        rw [show cs + cap - 1 + 1 - cs = cap by omega]
        rw [show last + 1 - cs = (last + 1 - (cs + cap)) + cap by omega]
        exact List.range'_append_1 cs cap (last + 1 - (cs + cap))
      · intro p hp
        rcases List.mem_cons.mp hp with hhd | htl
        · subst hhd
          exact ⟨by omega, by omega⟩
        · exact hbounds p htl
      · simp only [List.length_cons, hlen]
        rw [show last - cs = (last - (cs + cap)) + cap by omega,
          Nat.add_div_right _ hcap]

/-- C3: over a fetch script of successful responses, downloadRange's issued
sub-request ranges partition the closed interval [s, e] in order with no gap and
no overlap, each sub-range is at most the chunk cap long, the number of
sub-requests is (e - s) / cap + 1 (so exactly one when the total length fits the
cap and exactly two for a total length of cap + 1), and the returned buffer is
the concatenation of the sub-responses in request order. -/
theorem c3_download_chunking (bodies : List Bytes) (s e cap : Nat)
    (hse : s ≤ e) (hcap : 0 < cap) (hmax : e ≤ maxSafeInteger)
    (hsupply : e + 1 - s ≤ cap * bodies.length) :
    ((downloadRange (bodies.map FetchOutcome.ok) s e cap).requests.flatMap
        (fun p => interval p.1 p.2) = interval s e) ∧
    (∀ p ∈ (downloadRange (bodies.map FetchOutcome.ok) s e cap).requests,
        p.1 ≤ p.2 ∧ p.2 + 1 - p.1 ≤ cap) ∧
    (downloadRange (bodies.map FetchOutcome.ok) s e cap).requests.length =
      (e - s) / cap + 1 ∧
    (e + 1 - s ≤ cap →
      (downloadRange (bodies.map FetchOutcome.ok) s e cap).requests = [(s, e)]) ∧
    (e + 1 - s = cap + 1 →
      (downloadRange (bodies.map FetchOutcome.ok) s e cap).requests.length = 2) ∧
    (downloadRange (bodies.map FetchOutcome.ok) s e cap).result =
      .ok ((bodies.take
        (downloadRange (bodies.map FetchOutcome.ok) s e cap).requests.length).flatten) := by
  have hguard : ¬(e < s ∨ maxSafeInteger < e) := by omega
  by_cases hfit : e - s + 1 ≤ cap
  · cases bodies with
    | nil =>
      simp only [List.length_nil, Nat.mul_zero] at hsupply
      omega
    | cons b rest =>
      have hrun : downloadRange ((b :: rest).map FetchOutcome.ok) s e cap =
          ⟨[(s, e)], [], .ok b⟩ := by
        simp [downloadRange, hguard, hfit]
      rw [hrun]
      refine ⟨by simp [interval], ?_, ?_, fun _ => rfl, ?_, ?_⟩
      · intro p hp
        simp only [List.mem_singleton] at hp
        subst hp
        exact ⟨hse, by omega⟩
      · simp only [List.length_singleton]
        rw [Nat.div_eq_of_lt (by omega)]
      · intro hx
        omega
      · simp
  · have hchunk : ¬(e - s + 1 ≤ cap) := hfit
    obtain ⟨rs, hcl, hbind, hbounds, hlen⟩ :=
      chunkLoop_all_ok e cap hcap bodies s 0 hse hsupply
    have hrun : downloadRange (bodies.map FetchOutcome.ok) s e cap =
        ⟨rs, [], .ok ((bodies.take rs.length).flatten)⟩ := by
      simp [downloadRange, hguard, hchunk, hcl, Except.map]
    rw [hrun]
    refine ⟨hbind, hbounds, hlen, ?_, ?_, rfl⟩
    · intro hx
      omega
    · intro hx
      rw [hlen, show e - s = cap by omega, Nat.div_self hcap]

/-- C3 witness: a 3-byte range with cap 2 issues exactly two sub-requests and
returns the concatenation of the two sub-responses. -/
theorem c3_download_chunking_witness :
    (downloadRange [FetchOutcome.ok [1, 2], FetchOutcome.ok [3]] 0 2 2).requests.length = 2 ∧
    (downloadRange [FetchOutcome.ok [1, 2], FetchOutcome.ok [3]] 0 2 2).result =
      .ok [1, 2, 3] := by
  have h := c3_download_chunking [[1, 2], [3]] 0 2 2 (by omega) (by omega)
    (by decide) (by decide)
  exact ⟨h.2.2.2.2.1 (by decide), (h.2.2.2.2.2).trans (by decide)⟩

/-- C4 counterexample: a requested range no larger than the chunk cap is served
by a single request with no retry - here the first (and only) attempt fails and
the whole call fails at once with the plain range error, even though the script
would have satisfied a second attempt, so the claimed 3-attempt retry budget
does not apply to such ranges. -/
theorem c4_counterexample :
    downloadRange [FetchOutcome.fail 7, FetchOutcome.ok [1], FetchOutcome.ok [1]] 0 0 5 =
      ⟨[(0, 0)], [], .error (.rangeFailed 7)⟩ ∧
    (1 : Nat) < 3 := by
  constructor
  · decide
  · decide

/-- C4 (amended): only the chunked path (total length above the cap) retries -
each chunk gets up to 3 attempts with linearly increasing backoff of
1000 * retryCount ms, and three consecutive failures abort the whole call with
the chunk-download error carrying the last cause; a range no larger than the
cap is served by exactly one request whose failure aborts the call immediately
with the plain range error carrying its cause. -/
theorem c4_retry_behaviour (s e cap c1v c2v c3v : Nat) (script : List FetchOutcome)
    (bodies : List Bytes) :
    (s ≤ e → e ≤ maxSafeInteger → e + 1 - s ≤ cap →
      downloadRange (FetchOutcome.fail c1v :: script) s e cap =
        ⟨[(s, e)], [], .error (.rangeFailed c1v)⟩) ∧
    (0 < cap → cap < e + 1 - s → e ≤ maxSafeInteger →
      downloadRange
          (FetchOutcome.fail c1v :: FetchOutcome.fail c2v :: FetchOutcome.fail c3v :: script)
          s e cap =
        ⟨[(s, s + cap - 1), (s, s + cap - 1), (s, s + cap - 1)], [1000 * 1, 1000 * 2],
          .error (.chunkFailed c3v)⟩) ∧
    (0 < cap → cap < e + 1 - s → e ≤ maxSafeInteger → e + 1 - s ≤ cap * bodies.length →
      (downloadRange
          (FetchOutcome.fail c1v :: FetchOutcome.fail c2v :: bodies.map FetchOutcome.ok)
          s e cap).waits = [1000 * 1, 1000 * 2] ∧
      (downloadRange
          (FetchOutcome.fail c1v :: FetchOutcome.fail c2v :: bodies.map FetchOutcome.ok)
          s e cap).result =
        .ok ((bodies.take
          ((downloadRange
            (FetchOutcome.fail c1v :: FetchOutcome.fail c2v :: bodies.map FetchOutcome.ok)
            s e cap).requests.length - 2)).flatten)) := by
  refine ⟨?_, ?_, ?_⟩
  · intro hse hmax hfit
    have hguard : ¬(e < s ∨ maxSafeInteger < e) := by omega
    have hfit' : e - s + 1 ≤ cap := by omega
    simp [downloadRange, hguard, hfit']
  · intro hcap hbig hmax
    have hguard : ¬(e < s ∨ maxSafeInteger < e) := by omega
    have hchunk : ¬(e - s + 1 ≤ cap) := by omega
    have hnot : ¬e < s := by omega
    have hmin : min (s + cap - 1) e = s + cap - 1 := by omega
    have hmax' : ¬maxSafeInteger < e := by omega
    simp [downloadRange, hguard, hchunk, chunkLoop, hnot, hmin, hmax', Except.map]
  · intro hcap hbig hmax hsupply
    have hguard : ¬(e < s ∨ maxSafeInteger < e) := by omega
    have hchunk : ¬(e - s + 1 ≤ cap) := by omega
    have hnot : ¬e < s := by omega
    have hmin : min (s + cap - 1) e = s + cap - 1 := by omega
    obtain ⟨rs, hcl, hbind, hbounds, hlen⟩ :=
      chunkLoop_all_ok e cap hcap bodies s 2 (by omega) hsupply
    have hloop : chunkLoop e cap
        (FetchOutcome.fail c1v :: FetchOutcome.fail c2v :: bodies.map FetchOutcome.ok) s 0 =
        ((s, s + cap - 1) :: (s, s + cap - 1) :: rs, [1000 * 1, 1000 * 2],
          .ok (bodies.take rs.length)) := by
      simp [chunkLoop, hnot, hmin, hcl]
    have hrun : downloadRange
        (FetchOutcome.fail c1v :: FetchOutcome.fail c2v :: bodies.map FetchOutcome.ok)
        s e cap =
        ⟨(s, s + cap - 1) :: (s, s + cap - 1) :: rs, [1000 * 1, 1000 * 2],
          .ok ((bodies.take rs.length).flatten)⟩ := by
      simp [downloadRange, hguard, hchunk, hloop, Except.map]
    rw [hrun]
    exact ⟨rfl, by simp⟩

/-- C4 witness: a 4-byte range with cap 9 fails on its single attempt with the
plain range error, and a 10-byte range with cap 3 makes three attempts on its
first chunk with backoffs of 1000 and 2000 ms before failing with the last
cause. -/
theorem c4_retry_behaviour_witness :
    downloadRange [FetchOutcome.fail 5] 0 3 9 = ⟨[(0, 3)], [], .error (.rangeFailed 5)⟩ ∧
    downloadRange [FetchOutcome.fail 1, FetchOutcome.fail 2, FetchOutcome.fail 3] 0 9 3 =
      ⟨[(0, 2), (0, 2), (0, 2)], [1000 * 1, 1000 * 2], .error (.chunkFailed 3)⟩ := by
  refine ⟨(c4_retry_behaviour 0 3 9 5 0 0 [] []).1 (by omega) (by decide) (by omega), ?_⟩
  exact ((c4_retry_behaviour 0 9 3 1 2 3 [] []).2.1 (by omega) (by omega) (by decide)).trans
    (by decide)

/-- C5 counterexample: on the local-file (buffer) path, extracting boot then a
name missing from a manifest that contains only boot emits one progress event
for boot and then one terminal error event - not the claimed success - because
processPayloadBuffer rethrows the extraction failure. -/
theorem c5_counterexample :
    bufferLoop [] [⟨bootName, [⟨1, 0, 1⟩]⟩] [bootName, dneName] =
      [Event.progress bootName, Event.error] ∧
    bufferLoop [] [⟨bootName, [⟨1, 0, 1⟩]⟩] [bootName, dneName] ≠
      [Event.progress bootName, Event.success] := by
  constructor
  · decide
  · decide

/-- C5 (amended): on the URL path, a requested name absent from the manifest is
skipped with a warning and no event, each found partition whose download
succeeds yields one progress event, and exactly one terminal success event
follows; on the local-file (buffer) path a missing name instead aborts the
batch - the events are the progress events of the earlier successful partitions
followed by exactly one terminal error event. -/
theorem c5_session_events :
    (∀ (dl : Nat → Nat → Except DlErr Bytes) (manifest : List MEntry) (names : List Bytes),
      (∀ p ∈ manifest, exOk (dl p.offset (p.offset + p.size - 1)) = true) →
      urlLoop dl manifest names =
        (names.flatMap (fun n =>
          if (manifest.find? (fun m => m.name == n)).isSome then [Event.progress n]
          else [])) ++ [Event.success]) ∧
    (∀ (body : Bytes) (manifest : List PartitionUpdate) (pre : List Bytes) (n : Bytes)
        (post : List Bytes),
      (∀ m ∈ pre, exOk (extractPartition body manifest m) = true) →
      manifest.find? (fun p => p.partitionName == n) = none →
      bufferLoop body manifest (pre ++ n :: post) =
        pre.map Event.progress ++ [Event.error]) := by
  constructor
  · intro dl manifest names hdl
    induction names with
    | nil => rfl
    | cons n rest ih =>
      cases hfind : manifest.find? (fun m => m.name == n) with
      | none =>
        have hlhs : urlLoop dl manifest (n :: rest) = urlLoop dl manifest rest := by
          simp only [urlLoop, hfind]
        rw [hlhs, ih, List.flatMap_cons, hfind]
        simp
      | some p =>
        have hp : p ∈ manifest := List.mem_of_find?_eq_some hfind
        have hok := hdl p hp
        cases hdlr : dl p.offset (p.offset + p.size - 1) with
        | error err => rw [hdlr] at hok; exact Bool.noConfusion hok
        | ok b =>
          have hlhs : urlLoop dl manifest (n :: rest) =
              Event.progress n :: urlLoop dl manifest rest := by
            simp only [urlLoop, hfind, hdlr]
          rw [hlhs, ih, List.flatMap_cons, hfind]
          simp
  · intro body manifest pre n post hpre hfind
    induction pre with
    | nil =>
      simp [bufferLoop, extractPartition, hfind]
    | cons m pre' ih =>
      have hm := hpre m (List.mem_cons_self m pre')
      cases hex : extractPartition body manifest m with
      | error err => rw [hex] at hm; exact Bool.noConfusion hm
      | ok b =>
        have ihr := ih (fun q hq => hpre q (List.mem_cons_of_mem m hq))
        simp [bufferLoop, hex, ihr]

/-- C5 witness: with an always-succeeding download, the URL path on
[boot, doesnotexist] against a boot-only manifest emits exactly one progress
for boot then one success; the buffer path on the same request emits the boot
progress then one error. -/
theorem c5_session_events_witness :
    urlLoop (fun _ _ => Except.ok []) [⟨bootName, 4, 64⟩] [bootName, dneName] =
      [Event.progress bootName, Event.success] ∧
    bufferLoop [0] [⟨bootName, [⟨1, 0, 1⟩]⟩] ([bootName] ++ dneName :: []) =
      [Event.progress bootName].map id ++ [Event.error] := by
  constructor
  · exact (c5_session_events.1 (fun _ _ => Except.ok []) [⟨bootName, 4, 64⟩]
      [bootName, dneName] (by decide)).trans (by decide)
  · exact (c5_session_events.2 [0] [⟨bootName, [⟨1, 0, 1⟩]⟩] [bootName] dneName []
      (by decide) (by decide)).trans (by decide)

set_option maxRecDepth 10000 in
/-- C6: whenever the central-directory walk accepts a candidate, the resolved
payload body offset equals localHeaderOffset + 30 + filenameLength +
extraFieldLength (lengths taken from the fetched local file header) and the 4
bytes at that offset hold the payload magic; a stored payload-named candidate
whose computed offset fails the magic check is skipped and the walk continues at
the next record; a cursor at or past the end of the central directory, or a
record without the central-directory signature, ends the walk with the
container-not-found error; and on the concrete one-entry ZIP fixture the walk
resolves exactly the known embedding offset 41. -/
theorem c6_zip_locator :
    (∀ (res : Nat → Nat) (cd : Bytes) (fuel off fdo : Nat),
      zipScanF res cd fuel off = .ok fdo →
      ∃ lho : Nat,
        leVal (fetchRange res lho 1025) 0 4 = 0x04034b50 ∧
        fdo = lho + 30 + leVal (fetchRange res lho 1025) 26 2 +
          leVal (fetchRange res lho 1025) 28 2 ∧
        leVal (fetchRange res fdo 8) 0 4 = 0xed26ff3a) ∧
    (∀ (res : Nat → Nat) (cd : Bytes) (fuel off : Nat),
      cd.length ≤ off → zipScanF res cd fuel off = .error .containerNotFound) ∧
    (∀ (res : Nat → Nat) (cd : Bytes) (fuel off : Nat),
      off < cd.length → off + 4 ≤ cd.length → leVal cd off 4 ≠ 0x02014b50 →
      zipScanF res cd (fuel + 1) off = .error .containerNotFound) ∧
    (∀ (res : Nat → Nat) (cd : Bytes) (fuel off : Nat),
      off + 46 + leVal cd (off + 28) 2 ≤ cd.length →
      leVal cd off 4 = 0x02014b50 →
      isPayloadName ((cd.drop (off + 46)).take (leVal cd (off + 28) 2)) = true →
      leVal cd (off + 10) 2 = 0 →
      leVal (fetchRange res (leVal cd (off + 42) 4) 1025) 0 4 = 0x04034b50 →
      leVal (fetchRange res (leVal cd (off + 42) 4 + 30 +
        leVal (fetchRange res (leVal cd (off + 42) 4) 1025) 26 2 +
        leVal (fetchRange res (leVal cd (off + 42) 4) 1025) 28 2) 8) 0 4 ≠ 0xed26ff3a →
      zipScanF res cd (fuel + 1) off =
        zipScanF res cd fuel
          (off + 46 + leVal cd (off + 28) 2 + leVal cd (off + 30) 2 +
            leVal cd (off + 32) 2)) ∧
    zipScanF zres cdFixture 57 0 = .ok 41 := by
  refine ⟨?_, ?_, ?_, ?_, by decide⟩
  · intro res cd fuel
    induction fuel with
    | zero =>
      intro off fdo h
      exact Except.noConfusion h
    | succ m ih =>
      intro off fdo h
      simp only [zipScanF] at h
      split at h
      · split at h
        · exact Except.noConfusion h
        · split at h
          · exact Except.noConfusion h
          · split at h
            · split at h
              · exact Except.noConfusion h
              · split at h
                · split at h
                  · exact ih _ _ h
                  · split at h
                    · exact Except.noConfusion h
                    · split at h
                      · rename_i hsig hmagic
                        injection h with h
                        subst h
                        exact ⟨_, by omega, rfl, hmagic⟩
                      · exact ih _ _ h
                · exact ih _ _ h
            · exact Except.noConfusion h
      · exact Except.noConfusion h
  · intro res cd fuel off hoff
    cases fuel with
    | zero => rfl
    | succ m => simp [zipScanF, Nat.not_lt.mpr hoff]
  · intro res cd fuel off h1 h2 h3
    have hg : getU32 cd off = some (leVal cd off 4) := by simp [getU32, h2]
    simp [zipScanF, h1, hg, h3]
  · intro res cd fuel off hlen hsig hname hcm hlsig hmagic
    have hofflt : off < cd.length := by omega
    have hg0 : getU32 cd off = some (leVal cd off 4) := by
      simp only [getU32, if_pos (show off + 4 ≤ cd.length by omega)]
    have hg28 : getU16 cd (off + 28) = some (leVal cd (off + 28) 2) := by
      simp only [getU16, if_pos (show off + 28 + 2 ≤ cd.length by omega)]
    have hg30 : getU16 cd (off + 30) = some (leVal cd (off + 30) 2) := by
      simp only [getU16, if_pos (show off + 30 + 2 ≤ cd.length by omega)]
    have hg32 : getU16 cd (off + 32) = some (leVal cd (off + 32) 2) := by
      simp only [getU16, if_pos (show off + 32 + 2 ≤ cd.length by omega)]
    have hg42 : getU32 cd (off + 42) = some (leVal cd (off + 42) 4) := by
      simp only [getU32, if_pos (show off + 42 + 4 ≤ cd.length by omega)]
    have hg10 : getU16 cd (off + 10) = some (leVal cd (off + 10) 2) := by
      simp only [getU16, if_pos (show off + 10 + 2 ≤ cd.length by omega)]
    simp only [zipScanF, if_pos hofflt, hg0, hg28, hg30, hg32, hg42, hg10,
      if_neg (not_not_intro hsig), if_neg (Nat.not_lt.mpr hlen), hname, if_pos,
      hcm, if_neg (not_not_intro hlsig), if_neg hmagic]
    simp

set_option maxRecDepth 10000 in
/-- C6 witness: on the one-entry ZIP fixture the walk resolves the known
embedding offset 41, and the soundness clause certifies its offset formula and
magic validation there. -/
theorem c6_zip_locator_witness :
    zipScanF zres cdFixture 57 0 = .ok 41 ∧
    (∃ lho : Nat,
      leVal (fetchRange zres lho 1025) 0 4 = 0x04034b50 ∧
      41 = lho + 30 + leVal (fetchRange zres lho 1025) 26 2 +
        leVal (fetchRange zres lho 1025) 28 2 ∧
      leVal (fetchRange zres 41 8) 0 4 = 0xed26ff3a) := by
  have h : zipScanF zres cdFixture 57 0 = .ok 41 := by decide
  exact ⟨h, c6_zip_locator.1 zres cdFixture 57 0 41 h⟩

set_option maxRecDepth 10000 in
/-- C7: in the ZIP64-capable readZipPayload revision (src/unnamed/part_002),
whenever the standard EOCD record's offset, size or count field reads as the
sentinel 0xFFFFFFFF (0xFFFF for the 16-bit count) and the ZIP64 locator record
sits 20 bytes before it, the locator is followed to the ZIP64 EOCD record and
the true 64-bit offset, size and count are taken from there; an entry whose
local-header offset field is not the sentinel keeps that raw value, a sentinel
makes the walk scan the extra-field block - a record with tag 0x0001 yields the
true 64-bit local-header offset from its data, any other record is skipped by
4 + dataSize bytes; on the concrete sentinel-laden window the resolved
central-directory offset is the true value 100, and on a record whose ZIP64 tag
sits behind an unrelated extra record the resolved local-header offset is the
true value 77. -/
theorem c7_zip64_followed :
    (∀ (res : Nat → Nat) (endBuf : Bytes) (e : Nat),
      findEocd2 endBuf = some (e, false) →
      (leVal endBuf (e + 16) 4 = 0xffffffff ∨ leVal endBuf (e + 12) 4 = 0xffffffff ∨
        leVal endBuf (e + 10) 2 = 0xffff) →
      20 ≤ e → leVal endBuf (e - 20) 4 = 0x07064b50 →
      leVal (fetchRange res (leVal endBuf (e - 20 + 8) 8) 256) 0 4 = 0x06064b50 →
      readZipEocd2 res endBuf =
        .ok ⟨leVal (fetchRange res (leVal endBuf (e - 20 + 8) 8) 256) 48 8,
          leVal (fetchRange res (leVal endBuf (e - 20 + 8) 8) 256) 40 8,
          leVal (fetchRange res (leVal endBuf (e - 20 + 8) 8) 256) 32 8, true⟩) ∧
    (∀ (cd : Bytes) (off : Nat),
      leVal cd (off + 42) 4 ≠ 0xffffffff →
      entryLocalHeaderOffset cd off = .ok (leVal cd (off + 42) 4)) ∧
    (∀ (cd : Bytes) (endPos fuel zo lho : Nat),
      zo < endPos → zo + 12 ≤ cd.length → leVal cd zo 2 = 0x0001 →
      zip64ExtraScan cd endPos (fuel + 1) zo lho = .ok (leVal cd (zo + 4) 8)) ∧
    (∀ (cd : Bytes) (endPos fuel zo lho : Nat),
      zo < endPos → zo + 4 ≤ cd.length → leVal cd zo 2 ≠ 0x0001 →
      zip64ExtraScan cd endPos (fuel + 1) zo lho =
        zip64ExtraScan cd endPos fuel (zo + 4 + leVal cd (zo + 2) 2) lho) ∧
    readZipEocd2 (fun n => byteAt z64Fixture n) z64Fixture = .ok ⟨100, 46, 1, true⟩ ∧
    entryLocalHeaderOffset z64cd2 0 = .ok 77 := by
  refine ⟨?_, ?_, ?_, ?_, by decide, by decide⟩
  · intro res endBuf e hfind hsent h20 hloc hz64sig
    simp only [readZipEocd2, hfind]
    rw [if_pos (by omega : leVal endBuf (e + 16) 4 = 0xffffffff ∨
      leVal endBuf (e + 12) 4 = 0xffffffff ∨ leVal endBuf (e + 10) 2 = 0xffff)]
    rw [if_pos ⟨h20, hloc⟩, if_neg (not_not_intro hz64sig)]
  · intro cd off hraw
    simp only [entryLocalHeaderOffset, if_neg hraw]
  · intro cd endPos fuel zo lho hzo hlen htag
    have h1 : getU16 cd zo = some (leVal cd zo 2) := by
      simp only [getU16, if_pos (show zo + 2 ≤ cd.length by omega)]
    have h2 : getU16 cd (zo + 2) = some (leVal cd (zo + 2) 2) := by
      simp only [getU16, if_pos (show zo + 2 + 2 ≤ cd.length by omega)]
    have h3 : getU64 cd (zo + 4) = some (leVal cd (zo + 4) 8) := by
      simp only [getU64, if_pos (show zo + 4 + 8 ≤ cd.length by omega)]
    simp only [zip64ExtraScan, if_pos hzo, h1, h2, h3, if_pos htag]
  · intro cd endPos fuel zo lho hzo hlen htag
    have h1 : getU16 cd zo = some (leVal cd zo 2) := by
      simp only [getU16, if_pos (show zo + 2 ≤ cd.length by omega)]
    have h2 : getU16 cd (zo + 2) = some (leVal cd (zo + 2) 2) := by
      simp only [getU16, if_pos (show zo + 2 + 2 ≤ cd.length by omega)]
    simp only [zip64ExtraScan, if_pos hzo, h1, h2, if_neg htag]

set_option maxRecDepth 10000 in
/-- C7 witness: the sentinel-laden trailing window resolves its EOCD through
the ZIP64 locator to the ZIP64 EOCD record's true fields, and the sentinel
local-header offset of the extra-field fixture resolves through tag 0x0001. -/
theorem c7_zip64_followed_witness :
    findEocd2 z64Fixture = some (76, false) ∧
    readZipEocd2 (fun n => byteAt z64Fixture n) z64Fixture =
      .ok ⟨leVal (fetchRange (fun n => byteAt z64Fixture n)
            (leVal z64Fixture (76 - 20 + 8) 8) 256) 48 8,
        leVal (fetchRange (fun n => byteAt z64Fixture n)
          (leVal z64Fixture (76 - 20 + 8) 8) 256) 40 8,
        leVal (fetchRange (fun n => byteAt z64Fixture n)
          (leVal z64Fixture (76 - 20 + 8) 8) 256) 32 8, true⟩ ∧
    leVal z64cd2 (0 + 42) 4 = 0xffffffff ∧
    zip64ExtraScan z64cd2 77 21 65 0xffffffff = .ok (leVal z64cd2 (65 + 4) 8) := by
  refine ⟨by decide, ?_, by decide, ?_⟩
  · exact c7_zip64_followed.1 (fun n => byteAt z64Fixture n) z64Fixture 76
      (by decide) (by decide) (by decide) (by decide) (by decide)
  · exact c7_zip64_followed.2.2.1 z64cd2 77 20 65 0xffffffff
      (by decide) (by decide) (by decide)

end PayloadDumper
